import Mathlib

/-!
Verification of the quote-generation core of a market-making strategy.

The development shallowly embeds three source files:
* `smm/strategy/features/bba_imbalance.py` — best-bid/ask imbalance feature;
* `smm/strategy/marketmaker.py` — warm-up wait and quote-generator loading;
* `smm/quote_generators/plain.py` — the plain quote generator.

Exact rational/real arithmetic stands in for Python floats. Helper
functions that live in the repository outside the embedded files
(`frameworks.tools.*`, the `QuoteGenerator` base class) are modelled from
the specification and marked as such in their doc comments.
-/

namespace Smm

/-! ### Feature: `bba_imbalance` (src/smm/strategy/features/bba_imbalance.py) -/

/-- Embeds `bba_imbalance(bid, ask) = ((bid/(ask + bid)) - 0.5) * 2`
(lines 5–11 of `bba_imbalance.py`), over exact rationals. -/
def bba_imbalance (bid ask : ℚ) : ℚ :=
  ((bid / (ask + bid)) - 0.5) * 2

/-! ### Strategy loop (src/smm/strategy/marketmaker.py) -/

/-- The data read by the warm-up poll: lengths of the `trades`, `ohlcv`
and `ticker` collections, and the `tick_size` / `lot_size` scalars. -/
structure WsData where
  trades_len : ℕ
  ohlcv_len : ℕ
  ticker_len : ℕ
  tick_size : ℚ
  lot_size : ℚ
deriving DecidableEq

/-- One iteration body of `wait_for_ws_warmup` (lines 39–57 of
`marketmaker.py`): `true` when none of the `continue` guards fires, i.e.
the loop reaches `break` on this poll. -/
def warmup_pass (d : WsData) : Bool :=
  if d.trades_len < 100 then false
  else if d.ohlcv_len < 100 then false
  else if d.ticker_len = 0 then false
  else if d.tick_size = 0 ∧ d.lot_size = 0 then false
  else true

/-- Fuel-indexed unfolding of the `while True` loop of
`wait_for_ws_warmup`: starting at poll index `i`, return the index of the
first poll whose data passes every guard, or `none` if fuel runs out. -/
def waitFrom (polls : ℕ → WsData) : ℕ → ℕ → Option ℕ
  | _, 0 => none
  | i, fuel + 1 =>
    if warmup_pass (polls i) then some i else waitFrom polls (i + 1) fuel

/-- Embeds `wait_for_ws_warmup` (lines 34–57 of `marketmaker.py`): the
loop sleeps one interval, reads the shared data (`polls n` is the data
seen by the `n`-th poll), and exits at the first passing poll. -/
def wait_for_ws_warmup (polls : ℕ → WsData) (fuel : ℕ) : Option ℕ :=
  waitFrom polls 0 fuel

/-- The two quote-generator implementations reachable from
`load_quote_generator`. -/
inductive QuoteGeneratorKind where
  | plain
  | stinky
deriving DecidableEq

/-- Embeds `load_quote_generator` (lines 15–32 of `marketmaker.py`):
lowercase the configured name, return a generator for `"plain"` and
`"stinky"`, and raise `ValueError` (modelled as `Except.error`) for
anything else. -/
def load_quote_generator (name : String) : Except String QuoteGeneratorKind :=
  match name.toLower with
  | "plain" => Except.ok QuoteGeneratorKind.plain
  | "stinky" => Except.ok QuoteGeneratorKind.stinky
  | other => Except.error ("Invalid quote generator: " ++ other)

/-! ### Plain quote generator (src/smm/quote_generators/plain.py)

The generator is embedded over the real numbers. Python float powers
`x ** y` appear in `plain.py` with the non-integer exponents `0.5`, `1.5`
and `2 + aggressiveness`; for a negative base these produce a complex
number in Python which the downstream `float64`-typed numba helpers
reject, so the whole call raises.  `pyPow` models this partiality by
returning `none` for a negative base, and the quote-construction
functions are `Option`-valued accordingly. -/

/-- The strategy parameters and market snapshot read by
`PlainQuoteGenerator` (attributes of the shared state / base class). -/
structure SmmState where
  mid : ℝ
  inventory_delta : ℝ
  aggressiveness : ℝ
  minimum_spread : ℝ
  total_orders : ℕ
  max_position : ℝ
  tick_size : ℝ
  lot_size : ℝ

/-- Quote side; the source passes `side=0.0` for a bid and `side=1.0`
for an ask to `generate_single_quote`. -/
inductive Side where
  | bid
  | ask
deriving DecidableEq

/-- A single quote as assembled by the base class's
`generate_single_quote` (modelled from the spec's Quote record:
side, limit order type, price, size). -/
structure Quote where
  side : Side
  price : ℝ
  size : ℝ

/-- Models Python's `x ** y` for the non-integer exponents used in
`plain.py` (`0.5`, `1.5`, `2 + aggressiveness`, the last only on a
non-negative base): real power for a non-negative base, `none` for a
negative base, where Python yields a complex value that the
`float64`-typed numba helpers downstream reject with an error. -/
noncomputable def pyPow (x y : ℝ) : Option ℝ :=
  if 0 ≤ x then some (x ^ y) else none

/-- Modelled from the spec: `nbclip` (from `frameworks.tools.numba`,
outside the embedded sources) clamps its argument into `[lo, hi]`,
numpy-style — the upper bound is applied after the lower one. -/
noncomputable def nbclip (x lo hi : ℝ) : ℝ :=
  min (max x lo) hi

/-- Modelled from the spec: `round_floor` (from
`frameworks.tools.trading.rounding`, outside the embedded sources)
rounds a number down to a multiple of `step_size`. -/
noncomputable def round_floor (num step_size : ℝ) : ℝ :=
  ⌊num / step_size⌋ * step_size

/-- Modelled from the spec: `round_ceil` (from
`frameworks.tools.trading.rounding`, outside the embedded sources)
rounds a number up to a multiple of `step_size`. -/
noncomputable def round_ceil (num step_size : ℝ) : ℝ :=
  ⌈num / step_size⌉ * step_size

/-- Modelled from the spec: `nbgeomspace` (from
`frameworks.tools.numba`, outside the embedded sources) produces `n`
geometrically spaced values from `start` to `stop`: successive values
share the common ratio `(stop / start) ^ (1 / (n - 1))`. -/
noncomputable def nbgeomspace (start stop : ℝ) (n : ℕ) : List ℝ :=
  (List.range n).map (fun i => start * ((stop / start) ^ (((n : ℝ) - 1)⁻¹)) ^ i)

/-- Modelled from the spec: `generate_geometric_weights` (from
`frameworks.tools.trading.weights`, outside the embedded sources)
returns `num` weights proportional to `r ^ i`, normalized to sum to 1,
in reverse order when `reverse` is set. -/
noncomputable def generate_geometric_weights (num : ℕ) (r : ℝ) (reverse : Bool) : List ℝ :=
  let raw := (List.range num).map (fun i => r ^ i)
  let w := raw.map (fun x => x / raw.sum)
  if reverse then w.reverse else w

/-- Modelled from the spec: `bps_to_decimal` (a `QuoteGenerator` base
class helper, outside the embedded sources) converts basis points to a
decimal fraction, `bps / 10000`. -/
noncomputable def bps_to_decimal (bps : ℝ) : ℝ :=
  bps / 10000

/-- Embeds `PlainQuoteGenerator.corrected_skew` (lines 24–40 of
`plain.py`): shift the skew by `inventory_delta ** 2.0`, upward when the
inventory delta is negative and downward otherwise. -/
noncomputable def corrected_skew (st : SmmState) (skew : ℝ) : ℝ :=
  let corrective_amount := st.inventory_delta ^ 2
  if st.inventory_delta < 0 then skew + corrective_amount
  else skew - corrective_amount

/-- Embeds `PlainQuoteGenerator.corrected_spread` (lines 42–60 of
`plain.py`): floor the spread at the decimal minimum spread, otherwise
clip it into `[spread, min_spread * 5]`. -/
noncomputable def corrected_spread (st : SmmState) (spread : ℝ) : ℝ :=
  let min_spread := bps_to_decimal st.minimum_spread
  if spread < min_spread then min_spread
  else nbclip spread spread (min_spread * 5)

/-- The bid quote emitted per ladder level by `prepare_orders` (lines
91–96 of `plain.py`, through the base class's `generate_single_quote`
with `side=0.0`): price floored to the tick, size ceiled to the lot. -/
noncomputable def mkBid (st : SmmState) (price size : ℝ) : Quote :=
  { side := Side.bid,
    price := round_floor price st.tick_size,
    size := round_ceil size st.lot_size }

/-- The ask quote emitted per ladder level by `prepare_orders` (lines
98–103 of `plain.py`, through the base class's `generate_single_quote`
with `side=1.0`): price and size both ceiled. -/
noncomputable def mkAsk (st : SmmState) (price size : ℝ) : Quote :=
  { side := Side.ask,
    price := round_ceil price st.tick_size,
    size := round_ceil size st.lot_size }

/-- Embeds `PlainQuoteGenerator.prepare_orders` (lines 62–105 of
`plain.py`): zip the four level arrays and emit, per level, one bid
quote then one ask quote. -/
noncomputable def prepare_orders (st : SmmState)
    (bid_prices bid_sizes ask_prices ask_sizes : List ℝ) : List Quote :=
  ((bid_prices.zip bid_sizes).zip (ask_prices.zip ask_sizes)).flatMap
    (fun x => [mkBid st x.1.1 x.1.2, mkAsk st x.2.1 x.2.2])

/-- The geometric size ratio `0.5 + nbclip(skew, 0.0, 0.5)` computed
identically at lines 144 and 197 of `plain.py`. -/
noncomputable def clipped_r (skew : ℝ) : ℝ :=
  0.5 + nbclip skew 0 0.5

/-- Embeds `PlainQuoteGenerator.generate_positive_skew_quotes`
(lines 107–158 of `plain.py`). The three `pyPow` binds are the float
powers `skew ** 0.5`, `spread ** 1.5` and
`clipped_r ** (2 + aggressiveness)` of the source. -/
noncomputable def generate_positive_skew_quotes (st : SmmState)
    (skew spread : ℝ) : Option (List Quote) :=
  (pyPow skew 0.5).bind fun sqrt_skew =>
  (pyPow spread 1.5).bind fun spread_pow =>
  let half_spread := spread / 2
  let aggressiveness := st.aggressiveness * sqrt_skew
  let best_bid_price := st.mid - (half_spread * (1 - aggressiveness))
  let best_ask_price := best_bid_price + spread
  (pyPow (clipped_r skew) (2 + aggressiveness)).bind fun r_pow =>
  some (prepare_orders st
    (nbgeomspace best_bid_price (best_bid_price - spread_pow) (st.total_orders / 2))
    ((generate_geometric_weights (st.total_orders / 2) (clipped_r skew) true).map
      (fun w => st.max_position * w))
    (nbgeomspace best_ask_price (best_ask_price + spread_pow) (st.total_orders / 2))
    ((generate_geometric_weights (st.total_orders / 2) (0.5 + r_pow) true).map
      (fun w => st.max_position * w)))

/-- Embeds `PlainQuoteGenerator.generate_negative_skew_quotes`
(lines 160–211 of `plain.py`): the mirror construction — the best ask is
placed first and the size-ratio roles of the two sides are swapped.
Line 180 passes the branch's own `skew` (negative on this branch) into
`skew ** 0.5`. -/
noncomputable def generate_negative_skew_quotes (st : SmmState)
    (skew spread : ℝ) : Option (List Quote) :=
  (pyPow skew 0.5).bind fun sqrt_skew =>
  (pyPow spread 1.5).bind fun spread_pow =>
  let half_spread := spread / 2
  let aggressiveness := st.aggressiveness * sqrt_skew
  let best_ask_price := st.mid + (half_spread * (1 - aggressiveness))
  let best_bid_price := best_ask_price - spread
  (pyPow (clipped_r skew) (2 + aggressiveness)).bind fun r_pow =>
  some (prepare_orders st
    (nbgeomspace best_bid_price (best_bid_price - spread_pow) (st.total_orders / 2))
    ((generate_geometric_weights (st.total_orders / 2) (0.5 + r_pow) true).map
      (fun w => st.max_position * w))
    (nbgeomspace best_ask_price (best_ask_price + spread_pow) (st.total_orders / 2))
    ((generate_geometric_weights (st.total_orders / 2) (clipped_r skew) true).map
      (fun w => st.max_position * w)))

/-- Embeds `PlainQuoteGenerator.generate_quotes` (lines 213–217 of
`plain.py`): dispatch on the sign of the skew. -/
noncomputable def generate_quotes (st : SmmState) (skew spread : ℝ) :
    Option (List Quote) :=
  if 0 < skew then generate_positive_skew_quotes st skew spread
  else generate_negative_skew_quotes st skew spread

/-- The effective aggressiveness `aggressiveness * skew ** 0.5` computed
at lines 127 and 180 of `plain.py`, as a real power (the value flowing
through the branch when `skew ** 0.5` is real, i.e. `skew ≥ 0`). -/
noncomputable def aggressiveness_eff (st : SmmState) (skew : ℝ) : ℝ :=
  st.aggressiveness * skew ^ (0.5 : ℝ)

/-- The best bid price of the positive-skew branch (line 129 of
`plain.py`). -/
noncomputable def pos_best_bid (st : SmmState) (skew spread : ℝ) : ℝ :=
  st.mid - (spread / 2 * (1 - aggressiveness_eff st skew))

/-- The best ask price of the positive-skew branch (line 130 of
`plain.py`). -/
noncomputable def pos_best_ask (st : SmmState) (skew spread : ℝ) : ℝ :=
  pos_best_bid st skew spread + spread

/-- The best ask price of the negative-skew branch (line 182 of
`plain.py`). -/
noncomputable def neg_best_ask (st : SmmState) (skew spread : ℝ) : ℝ :=
  st.mid + (spread / 2 * (1 - aggressiveness_eff st skew))

/-- The best bid price of the negative-skew branch (line 183 of
`plain.py`). -/
noncomputable def neg_best_bid (st : SmmState) (skew spread : ℝ) : ℝ :=
  neg_best_ask st skew spread - spread

/-- The ask-side geometric size ratio `0.5 + clipped_r ** (2 +
aggressiveness)` of the positive-skew branch (line 154 of `plain.py`;
the same expression is the bid-side ratio at line 201 of the
negative-skew branch). -/
noncomputable def pos_ask_ratio (st : SmmState) (skew : ℝ) : ℝ :=
  0.5 + clipped_r skew ^ (2 + aggressiveness_eff st skew)

/-- A concrete parameter set: mid 100, inventory delta 1/2,
aggressiveness 1/2, minimum spread 10000 bps, 4 total orders, max
position 10, tick 1/100, lot 1/1000. -/
noncomputable def stA : SmmState :=
  { mid := 100, inventory_delta := 1/2, aggressiveness := 1/2,
    minimum_spread := 10000, total_orders := 4, max_position := 10,
    tick_size := 1/100, lot_size := 1/1000 }

/-- A concrete parameter set with aggressiveness 0. -/
noncomputable def stZeroAggr : SmmState :=
  { mid := 100, inventory_delta := 0, aggressiveness := 0,
    minimum_spread := 5, total_orders := 4, max_position := 10,
    tick_size := 1/100, lot_size := 1/1000 }

/-- A poll stream on which every condition except a non-zero `tick_size`
holds from the first poll on. -/
def tickZeroPolls : ℕ → WsData :=
  fun _ => { trades_len := 100, ohlcv_len := 100, ticker_len := 1,
             tick_size := 0, lot_size := 3 }

/-- A poll stream satisfying every warm-up condition from the start. -/
def readyPolls : ℕ → WsData :=
  fun _ => { trades_len := 150, ohlcv_len := 150, ticker_len := 2,
             tick_size := 1, lot_size := 2 }

/-! ### Helper lemmas for the warm-up loop -/

/-- The guard structure of one poll, unfolded into the four conditions
the loop actually checks. -/
lemma warmup_pass_iff (d : WsData) :
    warmup_pass d = true ↔
      100 ≤ d.trades_len ∧ 100 ≤ d.ohlcv_len ∧ 1 ≤ d.ticker_len ∧
        ¬(d.tick_size = 0 ∧ d.lot_size = 0) := by
  unfold warmup_pass
  split_ifs with h1 h2 h3 h4
  · simp; omega
  · simp; omega
  · simp; omega
  · simp [h4]
  · simp only [true_iff]
    refine ⟨by omega, by omega, by omega, h4⟩

lemma waitFrom_some (polls : ℕ → WsData) :
    ∀ fuel i n, waitFrom polls i fuel = some n →
      i ≤ n ∧ warmup_pass (polls n) = true ∧
        ∀ m, i ≤ m → m < n → warmup_pass (polls m) = false := by
  intro fuel
  induction fuel with
  | zero => intro i n h; simp [waitFrom] at h
  | succ k ih =>
    intro i n h
    unfold waitFrom at h
    by_cases hp : warmup_pass (polls i) = true
    · rw [if_pos hp] at h
      obtain rfl : i = n := by simpa using h
      exact ⟨le_refl _, hp, fun m him hmn => absurd him (by omega)⟩
    · rw [if_neg hp] at h
      obtain ⟨h1, h2, h3⟩ := ih (i + 1) n h
      refine ⟨by omega, h2, fun m him hmn => ?_⟩
      rcases eq_or_lt_of_le him with rfl | hlt
      · exact Bool.not_eq_true _ ▸ (by simpa using hp)
      · exact h3 m (by omega) hmn

/-! ### Helper lemmas for the plain quote generator -/

lemma pyPow_of_nonneg {x : ℝ} (y : ℝ) (h : 0 ≤ x) : pyPow x y = some (x ^ y) :=
  if_pos h

lemma pyPow_of_neg {x : ℝ} (y : ℝ) (h : x < 0) : pyPow x y = none :=
  if_neg (not_le.mpr h)

lemma half_le_clipped_r (skew : ℝ) : 1/2 ≤ clipped_r skew := by
  unfold clipped_r nbclip
  have h1 : (0:ℝ) ≤ min (max skew 0) 0.5 :=
    le_min (le_max_right _ _) (by norm_num)
  linarith

lemma clipped_r_le_one (skew : ℝ) : clipped_r skew ≤ 1 := by
  unfold clipped_r nbclip
  have h1 : min (max skew 0) 0.5 ≤ 0.5 := min_le_right _ _
  linarith

lemma clipped_r_eq_one_iff (skew : ℝ) : clipped_r skew = 1 ↔ 1/2 ≤ skew := by
  unfold clipped_r nbclip
  constructor
  · intro h
    have h1 : min (max skew 0) 0.5 = 0.5 := by linarith
    have h2 : (0.5:ℝ) ≤ max skew 0 := min_eq_right_iff.mp h1
    rcases le_max_iff.mp h2 with h3 | h3
    · linarith
    · norm_num at h3
  · intro h
    have h2 : min (max skew 0) 0.5 = 0.5 :=
      min_eq_right (le_max_of_le_left (by linarith))
    rw [h2]
    norm_num

lemma clipped_r_pos (skew : ℝ) : 0 < clipped_r skew :=
  lt_of_lt_of_le (by norm_num) (half_le_clipped_r skew)

/-- Unfolding of the positive-skew branch when both float powers are
real-valued (`skew ≥ 0`, `spread ≥ 0`), in terms of the named best
prices and size ratios. -/
lemma generate_positive_eq (st : SmmState) (skew spread : ℝ)
    (hsk : 0 ≤ skew) (hsp : 0 ≤ spread) :
    generate_positive_skew_quotes st skew spread =
      some (prepare_orders st
        (nbgeomspace (pos_best_bid st skew spread)
          (pos_best_bid st skew spread - spread ^ (1.5:ℝ)) (st.total_orders / 2))
        ((generate_geometric_weights (st.total_orders / 2) (clipped_r skew) true).map
          (fun w => st.max_position * w))
        (nbgeomspace (pos_best_ask st skew spread)
          (pos_best_ask st skew spread + spread ^ (1.5:ℝ)) (st.total_orders / 2))
        ((generate_geometric_weights (st.total_orders / 2) (pos_ask_ratio st skew) true).map
          (fun w => st.max_position * w))) := by
  unfold generate_positive_skew_quotes
  rw [pyPow_of_nonneg _ hsk, pyPow_of_nonneg _ hsp]
  simp only [Option.some_bind]
  rw [pyPow_of_nonneg _ (clipped_r_pos skew).le]
  simp only [Option.some_bind]
  unfold pos_best_ask pos_best_bid pos_ask_ratio aggressiveness_eff
  rfl

/-- Unfolding of the negative-skew branch when both float powers are
real-valued, which on this branch requires `skew ≥ 0` (it is entered for
`skew ≤ 0`, so only `skew = 0` avoids the fault). -/
lemma generate_negative_eq (st : SmmState) (skew spread : ℝ)
    (hsk : 0 ≤ skew) (hsp : 0 ≤ spread) :
    generate_negative_skew_quotes st skew spread =
      some (prepare_orders st
        (nbgeomspace (neg_best_bid st skew spread)
          (neg_best_bid st skew spread - spread ^ (1.5:ℝ)) (st.total_orders / 2))
        ((generate_geometric_weights (st.total_orders / 2) (pos_ask_ratio st skew) true).map
          (fun w => st.max_position * w))
        (nbgeomspace (neg_best_ask st skew spread)
          (neg_best_ask st skew spread + spread ^ (1.5:ℝ)) (st.total_orders / 2))
        ((generate_geometric_weights (st.total_orders / 2) (clipped_r skew) true).map
          (fun w => st.max_position * w))) := by
  unfold generate_negative_skew_quotes
  rw [pyPow_of_nonneg _ hsk, pyPow_of_nonneg _ hsp]
  simp only [Option.some_bind]
  rw [pyPow_of_nonneg _ (clipped_r_pos skew).le]
  simp only [Option.some_bind]
  unfold neg_best_bid neg_best_ask pos_ask_ratio aggressiveness_eff
  rfl

lemma length_flatMap_pair {α : Type} (l : List α) (f g : α → Quote) :
    (l.flatMap fun x => [f x, g x]).length = 2 * l.length := by
  induction l with
  | nil => rfl
  | cons a t ih =>
    simp only [List.flatMap_cons, List.cons_append, List.nil_append,
      List.length_cons, ih]
    omega

lemma getElem?_flatMap_pair {α : Type} (l : List α) (f g : α → Quote) :
    ∀ i : ℕ,
      ((l.flatMap fun x => [f x, g x])[2 * i]? = (l[i]?).map f) ∧
      ((l.flatMap fun x => [f x, g x])[2 * i + 1]? = (l[i]?).map g) := by
  induction l with
  | nil => intro i; simp
  | cons a t ih =>
    intro i
    cases i with
    | zero => simp [List.flatMap_cons]
    | succ j =>
      have hj := ih j
      rw [List.flatMap_cons]
      have e1 : 2 * (j + 1) = (2 * j + 1) + 1 := by ring
      rw [e1]
      simp only [List.cons_append, List.nil_append, List.getElem?_cons_succ]
      exact ⟨hj.1, hj.2⟩

lemma prepare_orders_length (st : SmmState) (bp bs ap asz : List ℝ) (n : ℕ)
    (h1 : bp.length = n) (h2 : bs.length = n)
    (h3 : ap.length = n) (h4 : asz.length = n) :
    (prepare_orders st bp bs ap asz).length = 2 * n := by
  unfold prepare_orders
  rw [length_flatMap_pair]
  simp [h1, h2, h3, h4]

lemma prepare_orders_getElem (st : SmmState) (bp bs ap asz : List ℝ) (n : ℕ)
    (h1 : bp.length = n) (h2 : bs.length = n)
    (h3 : ap.length = n) (h4 : asz.length = n) (i : ℕ) (hi : i < n) :
    (prepare_orders st bp bs ap asz)[2 * i]? =
      some (mkBid st (bp.get ⟨i, by omega⟩) (bs.get ⟨i, by omega⟩)) ∧
    (prepare_orders st bp bs ap asz)[2 * i + 1]? =
      some (mkAsk st (ap.get ⟨i, by omega⟩) (asz.get ⟨i, by omega⟩)) := by
  unfold prepare_orders
  obtain ⟨g1, g2⟩ := getElem?_flatMap_pair ((bp.zip bs).zip (ap.zip asz))
    (fun x => mkBid st x.1.1 x.1.2) (fun x => mkAsk st x.2.1 x.2.2) i
  have hzi : i < ((bp.zip bs).zip (ap.zip asz)).length := by
    simp [h1, h2, h3, h4]
    omega
  rw [g1, g2, List.getElem?_eq_getElem hzi]
  simp only [Option.map_some', List.getElem_zip]
  constructor
  · congr 1
  · congr 1

lemma nbgeomspace_length (start stop : ℝ) (n : ℕ) :
    (nbgeomspace start stop n).length = n := by
  simp [nbgeomspace]

lemma nbgeomspace_getElem (start stop : ℝ) (n i : ℕ) (hi : i < n) :
    (nbgeomspace start stop n)[i]? =
      some (start * ((stop / start) ^ (((n : ℝ) - 1)⁻¹)) ^ i) := by
  simp [nbgeomspace, List.getElem?_map, List.getElem?_range, hi]

lemma round_floor_le (x step : ℝ) (h : 0 < step) : round_floor x step ≤ x := by
  unfold round_floor
  calc (⌊x / step⌋ : ℝ) * step ≤ (x / step) * step :=
        mul_le_mul_of_nonneg_right (Int.floor_le _) h.le
    _ = x := div_mul_cancel₀ x h.ne'

lemma round_floor_mono (x y step : ℝ) (h : 0 < step) (hxy : x ≤ y) :
    round_floor x step ≤ round_floor y step := by
  unfold round_floor
  have hfl : ⌊x / step⌋ ≤ ⌊y / step⌋ := Int.floor_mono (by gcongr)
  exact mul_le_mul_of_nonneg_right (by exact_mod_cast hfl) h.le

lemma le_round_ceil (x step : ℝ) (h : 0 < step) : x ≤ round_ceil x step := by
  unfold round_ceil
  calc x = (x / step) * step := (div_mul_cancel₀ x h.ne').symm
    _ ≤ (⌈x / step⌉ : ℝ) * step :=
        mul_le_mul_of_nonneg_right (Int.le_ceil _) h.le

lemma round_ceil_mono (x y step : ℝ) (h : 0 < step) (hxy : x ≤ y) :
    round_ceil x step ≤ round_ceil y step := by
  unfold round_ceil
  have hcl : ⌈x / step⌉ ≤ ⌈y / step⌉ := Int.ceil_mono (by gcongr)
  exact mul_le_mul_of_nonneg_right (by exact_mod_cast hcl) h.le

/-- The common ratio of a downward geometric ladder from a positive
`start` to a positive `stop ≤ start` lies in `(0, 1]` (for `n ≥ 1`). -/
lemma geom_ratio_down (start stop : ℝ) (n : ℕ) (hn : 1 ≤ n)
    (hstart : 0 < start) (hstop : 0 < stop) (hle : stop ≤ start) :
    0 < (stop / start) ^ (((n : ℝ) - 1)⁻¹) ∧
      (stop / start) ^ (((n : ℝ) - 1)⁻¹) ≤ 1 := by
  have he : 0 ≤ ((n : ℝ) - 1)⁻¹ := by
    have h1 : (1 : ℝ) ≤ (n : ℝ) := by exact_mod_cast hn
    have : (0:ℝ) ≤ (n : ℝ) - 1 := by linarith
    positivity
  refine ⟨Real.rpow_pos_of_pos (div_pos hstop hstart) _, ?_⟩
  exact Real.rpow_le_one (div_nonneg hstop.le hstart.le)
    ((div_le_one hstart).mpr hle) he

/-- The common ratio of an upward geometric ladder from a positive
`start` to `stop ≥ start` is at least 1 (for `n ≥ 1`). -/
lemma geom_ratio_up (start stop : ℝ) (n : ℕ) (hn : 1 ≤ n)
    (hstart : 0 < start) (hge : start ≤ stop) :
    1 ≤ (stop / start) ^ (((n : ℝ) - 1)⁻¹) := by
  have he : 0 ≤ ((n : ℝ) - 1)⁻¹ := by
    have h1 : (1 : ℝ) ≤ (n : ℝ) := by exact_mod_cast hn
    have : (0:ℝ) ≤ (n : ℝ) - 1 := by linarith
    positivity
  have hb : 1 ≤ stop / start := (one_le_div hstart).mpr hge
  calc (1:ℝ) = (stop / start) ^ (0:ℝ) := (Real.rpow_zero _).symm
    _ ≤ (stop / start) ^ (((n : ℝ) - 1)⁻¹) :=
        Real.rpow_le_rpow_of_exponent_le hb he

lemma generate_geometric_weights_length (num : ℕ) (r : ℝ) (b : Bool) :
    (generate_geometric_weights num r b).length = num := by
  unfold generate_geometric_weights
  cases b <;> simp

lemma nbgeomspace_get (start stop : ℝ) (n i : ℕ) (hi : i < n)
    (h : i < (nbgeomspace start stop n).length) :
    (nbgeomspace start stop n).get ⟨i, h⟩ =
      start * ((stop / start) ^ (((n : ℝ) - 1)⁻¹)) ^ i := by
  have h0 := nbgeomspace_getElem start stop n i hi
  rw [List.getElem?_eq_getElem h] at h0
  simpa using h0

lemma nbgeomspace_get_zero (start stop : ℝ) (n : ℕ) (hn : 0 < n)
    (h : 0 < (nbgeomspace start stop n).length) :
    (nbgeomspace start stop n).get ⟨0, h⟩ = start := by
  have h0 := nbgeomspace_getElem start stop n 0 hn
  rw [List.getElem?_eq_getElem h] at h0
  simp only [pow_zero, mul_one] at h0
  simpa using h0

/-! ### C1 — spread correction -/

/-- C1 (confirmed): with `min_spread = minimum_spread / 10000` and a
non-negative `minimum_spread` parameter, `corrected_spread` returns
exactly `min_spread` below the floor, the spread itself inside
`[min_spread, 5 * min_spread]`, and exactly `5 * min_spread` above the
cap. -/
theorem C1_corrected_spread_cases (st : SmmState) (s : ℝ)
    (hbps : 0 ≤ st.minimum_spread) :
    (s < bps_to_decimal st.minimum_spread →
      corrected_spread st s = bps_to_decimal st.minimum_spread) ∧
    (bps_to_decimal st.minimum_spread ≤ s →
      s ≤ 5 * bps_to_decimal st.minimum_spread →
      corrected_spread st s = s) ∧
    (5 * bps_to_decimal st.minimum_spread < s →
      corrected_spread st s = 5 * bps_to_decimal st.minimum_spread) := by
  have hm0 : 0 ≤ bps_to_decimal st.minimum_spread := by
    unfold bps_to_decimal
    positivity
  refine ⟨fun h => ?_, fun h1 h2 => ?_, fun h => ?_⟩
  · simp only [corrected_spread]
    rw [if_pos h]
  · simp only [corrected_spread]
    rw [if_neg (not_lt.mpr h1)]
    unfold nbclip
    rw [max_self, min_eq_left (by linarith)]
  · simp only [corrected_spread]
    rw [if_neg (not_lt.mpr (by linarith))]
    unfold nbclip
    rw [max_self, min_eq_right (by linarith)]
    ring

/-- C1 witness: the three cases instantiated at the parameter set `stA`
(where `min_spread = 1`) and input spread 3. -/
theorem C1_corrected_spread_witness :
    (0:ℝ) ≤ stA.minimum_spread ∧
    ((3 < bps_to_decimal stA.minimum_spread →
      corrected_spread stA 3 = bps_to_decimal stA.minimum_spread) ∧
    (bps_to_decimal stA.minimum_spread ≤ 3 →
      (3:ℝ) ≤ 5 * bps_to_decimal stA.minimum_spread →
      corrected_spread stA 3 = 3) ∧
    (5 * bps_to_decimal stA.minimum_spread < 3 →
      corrected_spread stA 3 = 5 * bps_to_decimal stA.minimum_spread)) :=
  ⟨by norm_num [stA], C1_corrected_spread_cases stA 3 (by norm_num [stA])⟩

/-! ### C6 — skew correction -/

/-- C6 (confirmed): for `inventory_delta ∈ [-1, 1]`, `corrected_skew`
shifts the skew by exactly `inventory_delta ^ 2`, downward when the
delta is non-negative and upward when it is negative; at delta zero the
skew passes through unchanged. -/
theorem C6_corrected_skew_shift (st : SmmState) (s : ℝ)
    (h1 : -1 ≤ st.inventory_delta) (h2 : st.inventory_delta ≤ 1) :
    (0 ≤ st.inventory_delta →
      corrected_skew st s = s - st.inventory_delta ^ 2) ∧
    (st.inventory_delta < 0 →
      corrected_skew st s = s + st.inventory_delta ^ 2) ∧
    (st.inventory_delta = 0 → corrected_skew st s = s) := by
  refine ⟨fun h0 => ?_, fun hneg => ?_, fun h0 => ?_⟩
  · simp only [corrected_skew]
    rw [if_neg (not_lt.mpr h0)]
  · simp only [corrected_skew]
    rw [if_pos hneg]
  · simp only [corrected_skew, h0]
    norm_num

/-- C6 witness: the shift instantiated at the parameter set `stA`
(inventory delta 1/2) and skew 3. -/
theorem C6_corrected_skew_witness :
    (-1:ℝ) ≤ stA.inventory_delta ∧ stA.inventory_delta ≤ 1 ∧
    ((0 ≤ stA.inventory_delta →
      corrected_skew stA 3 = 3 - stA.inventory_delta ^ 2) ∧
    (stA.inventory_delta < 0 →
      corrected_skew stA 3 = 3 + stA.inventory_delta ^ 2) ∧
    (stA.inventory_delta = 0 → corrected_skew stA 3 = 3)) :=
  ⟨by norm_num [stA], by norm_num [stA],
    C6_corrected_skew_shift stA 3 (by norm_num [stA]) (by norm_num [stA])⟩

/-! ### C4 — geometric size ratio range -/

/-- C4 counterexample: at `skew = 1/2` the ratio
`r = 0.5 + clip(skew, 0, 0.5)` equals exactly 1, so it is not strictly
below 1 as the claim states. -/
theorem C4_counterexample_r_reaches_one :
    clipped_r (1/2) = 1 ∧ ¬ clipped_r (1/2) < 1 := by
  have h : clipped_r (1/2) = 1 := by
    unfold clipped_r nbclip
    norm_num
  exact ⟨h, by rw [h]; exact lt_irrefl 1⟩

/-- C4 (amended): for every skew, the geometric size ratio
`r = 0.5 + clip(skew, 0, 0.5)` lies in the closed interval `[0.5, 1.0]`,
attaining 1 exactly when `skew ≥ 0.5` (for such skews the weight
sequence is uniform rather than decaying). -/
theorem C4_clipped_r_range (skew : ℝ) :
    1/2 ≤ clipped_r skew ∧ clipped_r skew ≤ 1 ∧
      (clipped_r skew = 1 ↔ 1/2 ≤ skew) :=
  ⟨half_le_clipped_r skew, clipped_r_le_one skew, clipped_r_eq_one_iff skew⟩

/-! ### C5 — ask-side versus bid-side size ratio -/

/-- C5 counterexample: at aggressiveness 0 and `skew = 1/4`, the
ask-side ratio is `0.5 + (3/4)^2 = 17/16`, strictly greater than the
bid-side ratio `r = 3/4` — not smaller or equal as the claim states. -/
theorem C5_counterexample_ask_ratio_exceeds :
    (0:ℝ) < 1/4 ∧ 0 ≤ stZeroAggr.aggressiveness ∧
      clipped_r (1/4) < pos_ask_ratio stZeroAggr (1/4) := by
  refine ⟨by norm_num, by norm_num [stZeroAggr], ?_⟩
  have hr : clipped_r (1/4) = 3/4 := by
    unfold clipped_r nbclip
    norm_num
  have he : aggressiveness_eff stZeroAggr (1/4) = 0 := by
    unfold aggressiveness_eff stZeroAggr
    norm_num
  have h2 : pos_ask_ratio stZeroAggr (1/4) = 0.5 + (3/4 : ℝ) ^ (2:ℝ) := by
    unfold pos_ask_ratio
    rw [hr, he, add_zero]
  rw [hr, h2, show (2:ℝ) = ((2:ℕ):ℝ) by norm_num, Real.rpow_natCast]
  norm_num

/-- C5 (amended): on the positive-skew branch with `skew > 0` and
`aggressiveness ≥ 0`, the ask-side ratio `0.5 + r^(2 + aggressiveness_eff)`
is at most `0.5 + r^2`, its value at zero aggressiveness — raising the
exponent by `aggressiveness_eff ≥ 0` can only shrink `r^(2 + e)` since
`r ≤ 1`; it is however not in general `≤` the bid-side ratio `r`. -/
theorem C5_pos_ask_ratio_bound (st : SmmState) (skew : ℝ)
    (hsk : 0 < skew) (ha : 0 ≤ st.aggressiveness) :
    pos_ask_ratio st skew ≤ 0.5 + clipped_r skew ^ (2:ℕ) := by
  unfold pos_ask_ratio
  have he : 0 ≤ aggressiveness_eff st skew :=
    mul_nonneg ha (Real.rpow_nonneg hsk.le _)
  have hpow : clipped_r skew ^ (2 + aggressiveness_eff st skew) ≤
      clipped_r skew ^ ((2:ℕ):ℝ) := by
    apply Real.rpow_le_rpow_of_exponent_ge (clipped_r_pos skew)
      (clipped_r_le_one skew)
    push_cast
    linarith
  rw [Real.rpow_natCast] at hpow
  linarith

/-- C5 witness: the bound instantiated at the parameter set `stA` and
skew 1/4. -/
theorem C5_pos_ask_ratio_bound_witness :
    (0:ℝ) < 1/4 ∧ 0 ≤ stA.aggressiveness ∧
      pos_ask_ratio stA (1/4) ≤ 0.5 + clipped_r (1/4) ^ (2:ℕ) :=
  ⟨by norm_num, by norm_num [stA],
    C5_pos_ask_ratio_bound stA (1/4) (by norm_num) (by norm_num [stA])⟩

/-- Shape of one assembled ladder: with an even `total_orders ≥ 2`, a
downward bid geomspace from `bb` (with `0 < bb - s15` and `bb ≤ mid`) and
an upward ask geomspace from `ba ≥ mid`, the prepared order list has
exactly `total_orders` quotes, alternates bid/ask starting with a bid,
and successive same-side quotes lie no closer to the mid. -/
lemma ladder_shape_core (st : SmmState) (bb ba s15 r1 r2 : ℝ) (q : List Quote)
    (hq : q = prepare_orders st
        (nbgeomspace bb (bb - s15) (st.total_orders / 2))
        ((generate_geometric_weights (st.total_orders / 2) r1 true).map
          (fun w => st.max_position * w))
        (nbgeomspace ba (ba + s15) (st.total_orders / 2))
        ((generate_geometric_weights (st.total_orders / 2) r2 true).map
          (fun w => st.max_position * w)))
    (heven : st.total_orders % 2 = 0) (hn2 : 2 ≤ st.total_orders)
    (htick : 0 < st.tick_size) (hs15 : 0 ≤ s15)
    (hbbs : s15 < bb) (hbm : bb ≤ st.mid) (hmb : st.mid ≤ ba) :
    q.length = st.total_orders ∧
    (∀ i : ℕ, i < st.total_orders →
      q[i]?.map Quote.side = some (if i % 2 = 0 then Side.bid else Side.ask)) ∧
    (∀ i : ℕ, i + 2 < st.total_orders →
      ∃ u v, q[i]? = some u ∧ q[i + 2]? = some v ∧
        |u.price - st.mid| ≤ |v.price - st.mid|) := by
  subst hq
  set n := st.total_orders / 2 with hn
  have h2n : 2 * n = st.total_orders := by omega
  have hn1 : 1 ≤ n := by omega
  have hbb0 : 0 < bb := lt_of_le_of_lt hs15 hbbs
  have hba0 : 0 < ba := by linarith
  have l1 : (nbgeomspace bb (bb - s15) n).length = n := nbgeomspace_length _ _ _
  have l2 : ((generate_geometric_weights n r1 true).map
      (fun w => st.max_position * w)).length = n := by
    rw [List.length_map, generate_geometric_weights_length]
  have l3 : (nbgeomspace ba (ba + s15) n).length = n := nbgeomspace_length _ _ _
  have l4 : ((generate_geometric_weights n r2 true).map
      (fun w => st.max_position * w)).length = n := by
    rw [List.length_map, generate_geometric_weights_length]
  have hlen := prepare_orders_length st _ _ _ _ n l1 l2 l3 l4
  obtain ⟨hd0, hd1⟩ :=
    geom_ratio_down bb (bb - s15) n hn1 hbb0 (by linarith) (by linarith)
  have hu1 := geom_ratio_up ba (ba + s15) n hn1 hba0 (by linarith)
  set ρd := ((bb - s15) / bb) ^ (((n : ℝ) - 1)⁻¹) with hρd
  set ρu := ((ba + s15) / ba) ^ (((n : ℝ) - 1)⁻¹) with hρu
  have hfle : ∀ j : ℕ, bb * ρd ^ j ≤ bb := fun j =>
    mul_le_of_le_one_right hbb0.le (pow_le_one₀ hd0.le hd1)
  have hfmono : ∀ j : ℕ, bb * ρd ^ (j + 1) ≤ bb * ρd ^ j := fun j => by
    have h1 : ρd ^ (j + 1) ≤ ρd ^ j := by
      rw [pow_succ]
      exact mul_le_of_le_one_right (pow_nonneg hd0.le j) hd1
    exact mul_le_mul_of_nonneg_left h1 hbb0.le
  have hgge : ∀ j : ℕ, ba ≤ ba * ρu ^ j := fun j =>
    le_mul_of_one_le_right hba0.le (one_le_pow₀ hu1)
  have hgmono : ∀ j : ℕ, ba * ρu ^ j ≤ ba * ρu ^ (j + 1) := fun j => by
    have h1 : ρu ^ j ≤ ρu ^ (j + 1) := by
      rw [pow_succ]
      exact le_mul_of_one_le_right (pow_nonneg (by linarith) j) hu1
    exact mul_le_mul_of_nonneg_left h1 hba0.le
  refine ⟨by rw [hlen, h2n], ?_, ?_⟩
  · intro i hi
    by_cases hpar : i % 2 = 0
    · obtain ⟨j, rfl⟩ : ∃ j, i = 2 * j := ⟨i / 2, by omega⟩
      have hjn : j < n := by omega
      rw [(prepare_orders_getElem st _ _ _ _ n l1 l2 l3 l4 j hjn).1,
        if_pos hpar]
      simp [mkBid]
    · obtain ⟨j, rfl⟩ : ∃ j, i = 2 * j + 1 := ⟨i / 2, by omega⟩
      have hjn : j < n := by omega
      rw [(prepare_orders_getElem st _ _ _ _ n l1 l2 l3 l4 j hjn).2,
        if_neg hpar]
      simp [mkAsk]
  · intro i hi
    by_cases hpar : i % 2 = 0
    · obtain ⟨j, rfl⟩ : ∃ j, i = 2 * j := ⟨i / 2, by omega⟩
      have hj0 : j < n := by omega
      have hj1 : j + 1 < n := by omega
      obtain ⟨gb1, -⟩ := prepare_orders_getElem st _ _ _ _ n l1 l2 l3 l4 j hj0
      obtain ⟨gb2, -⟩ :=
        prepare_orders_getElem st _ _ _ _ n l1 l2 l3 l4 (j + 1) hj1
      rw [show 2 * j + 2 = 2 * (j + 1) by ring]
      refine ⟨_, _, gb1, gb2, ?_⟩
      simp only [mkBid]
      rw [nbgeomspace_get bb (bb - s15) n j hj0,
        nbgeomspace_get bb (bb - s15) n (j + 1) hj1]
      have p1 := round_floor_le (bb * ρd ^ j) st.tick_size htick
      have p2 := round_floor_le (bb * ρd ^ (j + 1)) st.tick_size htick
      have hle1 : round_floor (bb * ρd ^ j) st.tick_size ≤ st.mid := by
        have := hfle j
        linarith
      have hle2 : round_floor (bb * ρd ^ (j + 1)) st.tick_size ≤ st.mid := by
        have := hfle (j + 1)
        linarith
      rw [abs_of_nonpos (by linarith), abs_of_nonpos (by linarith)]
      have hm := round_floor_mono _ _ st.tick_size htick (hfmono j)
      linarith
    · obtain ⟨j, rfl⟩ : ∃ j, i = 2 * j + 1 := ⟨i / 2, by omega⟩
      have hj0 : j < n := by omega
      have hj1 : j + 1 < n := by omega
      obtain ⟨-, ga1⟩ := prepare_orders_getElem st _ _ _ _ n l1 l2 l3 l4 j hj0
      obtain ⟨-, ga2⟩ :=
        prepare_orders_getElem st _ _ _ _ n l1 l2 l3 l4 (j + 1) hj1
      rw [show 2 * j + 1 + 2 = 2 * (j + 1) + 1 by ring]
      refine ⟨_, _, ga1, ga2, ?_⟩
      simp only [mkAsk]
      rw [nbgeomspace_get ba (ba + s15) n j hj0,
        nbgeomspace_get ba (ba + s15) n (j + 1) hj1]
      have p1 := le_round_ceil (ba * ρu ^ j) st.tick_size htick
      have p2 := le_round_ceil (ba * ρu ^ (j + 1)) st.tick_size htick
      have hge1 : st.mid ≤ round_ceil (ba * ρu ^ j) st.tick_size := by
        have := hgge j
        linarith
      have hge2 : st.mid ≤ round_ceil (ba * ρu ^ (j + 1)) st.tick_size := by
        have := hgge (j + 1)
        linarith
      rw [abs_of_nonneg (by linarith), abs_of_nonneg (by linarith)]
      have hm := round_ceil_mono _ _ st.tick_size htick (hgmono j)
      linarith

/-! ### C2 — ladder shape -/

/-- C2 counterexample: at the valid parameter set `stZeroAggr` (4 total
orders, even) with spread 2 > 0 and the finite skew `-1/2`,
`generate_quotes` returns no quote list at all (the negative branch
faults on `skew ** 0.5`), so the claim does not hold for every finite
skew. -/
theorem C2_counterexample_negative_skew :
    stZeroAggr.total_orders % 2 = 0 ∧ 2 ≤ stZeroAggr.total_orders ∧
      (0:ℝ) < 2 ∧ generate_quotes stZeroAggr (-(1/2)) 2 = none := by
  refine ⟨by norm_num [stZeroAggr], by norm_num [stZeroAggr], by norm_num, ?_⟩
  unfold generate_quotes
  rw [if_neg (by norm_num)]
  unfold generate_negative_skew_quotes
  rw [pyPow_of_neg _ (by norm_num : (-(1/2) : ℝ) < 0)]
  rfl

/-- C2 (amended): for every even `total_orders ≥ 2`, `spread > 0` and
`skew ≥ 0` (for `skew < 0` the call faults on `skew ** 0.5` — see C3),
with sane parameters (`aggressiveness ≥ 0`, effective aggressiveness at
most 1, positive tick size, and a mid price large enough that the ladder
stays positive: `spread^1.5 < best bid`), `generate_quotes` returns
exactly `total_orders` quotes, alternating bid/ask starting with a bid,
innermost pair first: successive same-side quotes lie no closer to the
mid. -/
theorem C2_ladder_shape (st : SmmState) (skew spread : ℝ)
    (heven : st.total_orders % 2 = 0) (hn2 : 2 ≤ st.total_orders)
    (hsp : 0 < spread) (hsk : 0 ≤ skew) (ha : 0 ≤ st.aggressiveness)
    (hE : aggressiveness_eff st skew ≤ 1) (htick : 0 < st.tick_size)
    (hroom : spread ^ (1.5:ℝ) < pos_best_bid st skew spread) :
    ∃ q, generate_quotes st skew spread = some q ∧
      q.length = st.total_orders ∧
      (∀ i : ℕ, i < st.total_orders →
        q[i]?.map Quote.side =
          some (if i % 2 = 0 then Side.bid else Side.ask)) ∧
      (∀ i : ℕ, i + 2 < st.total_orders →
        ∃ u v, q[i]? = some u ∧ q[i + 2]? = some v ∧
          |u.price - st.mid| ≤ |v.price - st.mid|) := by
  have hs15 : 0 ≤ spread ^ (1.5:ℝ) := Real.rpow_nonneg hsp.le _
  have he0 : 0 ≤ aggressiveness_eff st skew :=
    mul_nonneg ha (Real.rpow_nonneg hsk _)
  have hprod1 : 0 ≤ spread / 2 * (1 - aggressiveness_eff st skew) :=
    mul_nonneg (by linarith) (by linarith)
  have hprod2 : 0 ≤ spread / 2 * (1 + aggressiveness_eff st skew) :=
    mul_nonneg (by linarith) (by linarith)
  rcases lt_or_eq_of_le hsk with hpos | hzero
  · have hbm : pos_best_bid st skew spread ≤ st.mid := by
      unfold pos_best_bid
      linarith
    have hmb : st.mid ≤ pos_best_ask st skew spread := by
      have hexp : pos_best_ask st skew spread - st.mid =
          spread / 2 * (1 + aggressiveness_eff st skew) := by
        unfold pos_best_ask pos_best_bid
        ring
      linarith
    unfold generate_quotes
    rw [if_pos hpos, generate_positive_eq st skew spread hsk hsp.le]
    obtain ⟨c1, c2, c3⟩ := ladder_shape_core st (pos_best_bid st skew spread)
      (pos_best_ask st skew spread) (spread ^ (1.5:ℝ)) (clipped_r skew)
      (pos_ask_ratio st skew) _ rfl heven hn2 htick hs15 hroom hbm hmb
    exact ⟨_, rfl, c1, c2, c3⟩
  · obtain rfl : skew = 0 := hzero.symm
    have he : aggressiveness_eff st 0 = 0 := by
      unfold aggressiveness_eff
      rw [Real.zero_rpow (by norm_num : (0.5:ℝ) ≠ 0), mul_zero]
    have hbbeq : neg_best_bid st 0 spread = pos_best_bid st 0 spread := by
      unfold neg_best_bid neg_best_ask pos_best_bid
      rw [he]
      ring
    have hbm : neg_best_bid st 0 spread ≤ st.mid := by
      unfold neg_best_bid neg_best_ask
      linarith
    have hmb : st.mid ≤ neg_best_ask st 0 spread := by
      unfold neg_best_ask
      linarith
    have hroom' : spread ^ (1.5:ℝ) < neg_best_bid st 0 spread := by
      rw [hbbeq]
      exact hroom
    unfold generate_quotes
    rw [if_neg (lt_irrefl 0), generate_negative_eq st 0 spread le_rfl hsp.le]
    obtain ⟨c1, c2, c3⟩ := ladder_shape_core st (neg_best_bid st 0 spread)
      (neg_best_ask st 0 spread) (spread ^ (1.5:ℝ)) (pos_ask_ratio st 0)
      (clipped_r 0) _ rfl heven hn2 htick hs15 hroom' hbm hmb
    exact ⟨_, rfl, c1, c2, c3⟩

/-- C2 witness: the ladder shape instantiated at the parameter set `stA`
(4 total orders), skew 0, spread 1. -/
theorem C2_ladder_shape_witness :
    stA.total_orders % 2 = 0 ∧ 2 ≤ stA.total_orders ∧ (0:ℝ) < 1 ∧
      (0:ℝ) ≤ 0 ∧ 0 ≤ stA.aggressiveness ∧ aggressiveness_eff stA 0 ≤ 1 ∧
      0 < stA.tick_size ∧ (1:ℝ) ^ (1.5:ℝ) < pos_best_bid stA 0 1 ∧
      ∃ q, generate_quotes stA 0 1 = some q ∧
        q.length = stA.total_orders ∧
        (∀ i : ℕ, i < stA.total_orders →
          q[i]?.map Quote.side =
            some (if i % 2 = 0 then Side.bid else Side.ask)) ∧
        (∀ i : ℕ, i + 2 < stA.total_orders →
          ∃ u v, q[i]? = some u ∧ q[i + 2]? = some v ∧
            |u.price - stA.mid| ≤ |v.price - stA.mid|) := by
  have h1 : stA.total_orders % 2 = 0 := by norm_num [stA]
  have h2 : 2 ≤ stA.total_orders := by norm_num [stA]
  have h3 : (0:ℝ) < 1 := by norm_num
  have h5 : (0:ℝ) ≤ stA.aggressiveness := by norm_num [stA]
  have hagg : aggressiveness_eff stA 0 = 0 := by
    unfold aggressiveness_eff
    rw [Real.zero_rpow (by norm_num : (0.5:ℝ) ≠ 0), mul_zero]
  have h6 : aggressiveness_eff stA 0 ≤ 1 := by rw [hagg]; norm_num
  have h7 : (0:ℝ) < stA.tick_size := by norm_num [stA]
  have h8 : (1:ℝ) ^ (1.5:ℝ) < pos_best_bid stA 0 1 := by
    rw [Real.one_rpow]
    unfold pos_best_bid
    rw [hagg]
    norm_num [stA]
  exact ⟨h1, h2, h3, le_rfl, h5, h6, h7, h8,
    C2_ladder_shape stA 0 1 h1 h2 h3 le_rfl h5 h6 h7 h8⟩

/-- C3 (code bug): for every `skew < 0`, `generate_quotes` dispatches to
the negative-skew branch, which passes the still-negative `skew` itself
into `skew ** 0.5` (line 180); the result is not a real number (Python
produces a complex value that the `float64` numba helpers reject), so
the call faults instead of returning quotes — the claimed invariant that
only non-negative magnitudes reach the square root does not hold. -/
theorem C3_negative_skew_sqrt_fault (st : SmmState) (skew spread : ℝ)
    (hsk : skew < 0) :
    generate_quotes st skew spread = none ∧
      generate_negative_skew_quotes st skew spread = none := by
  have hbranch : generate_negative_skew_quotes st skew spread = none := by
    unfold generate_negative_skew_quotes
    rw [pyPow_of_neg _ hsk]
    rfl
  refine ⟨?_, hbranch⟩
  unfold generate_quotes
  rw [if_neg (not_lt.mpr hsk.le), hbranch]

/-- C3 witness: the fault at the concrete failing input `skew = -1/4`,
`spread = 1`, parameter set `stA`. -/
theorem C3_negative_skew_sqrt_fault_witness :
    (-(1/4) : ℝ) < 0 ∧
      (generate_quotes stA (-(1/4)) 1 = none ∧
        generate_negative_skew_quotes stA (-(1/4)) 1 = none) :=
  ⟨by norm_num, C3_negative_skew_sqrt_fault stA (-(1/4)) 1 (by norm_num)⟩

/-- First-pair prices of an assembled ladder: with `total_orders/2 ≥ 1`
levels per side, the first emitted bid carries the floored `bb` and the
first emitted ask the ceiled `ba`. -/
lemma ladder_first_prices (st : SmmState) (bb ba s15 r1 r2 : ℝ)
    (hn1 : 0 < st.total_orders / 2) :
    ((prepare_orders st
      (nbgeomspace bb (bb - s15) (st.total_orders / 2))
      ((generate_geometric_weights (st.total_orders / 2) r1 true).map
        (fun w => st.max_position * w))
      (nbgeomspace ba (ba + s15) (st.total_orders / 2))
      ((generate_geometric_weights (st.total_orders / 2) r2 true).map
        (fun w => st.max_position * w)))[0]?.map Quote.price =
        some (round_floor bb st.tick_size)) ∧
    ((prepare_orders st
      (nbgeomspace bb (bb - s15) (st.total_orders / 2))
      ((generate_geometric_weights (st.total_orders / 2) r1 true).map
        (fun w => st.max_position * w))
      (nbgeomspace ba (ba + s15) (st.total_orders / 2))
      ((generate_geometric_weights (st.total_orders / 2) r2 true).map
        (fun w => st.max_position * w)))[1]?.map Quote.price =
        some (round_ceil ba st.tick_size)) := by
  obtain ⟨gb, ga⟩ := prepare_orders_getElem st
    (nbgeomspace bb (bb - s15) (st.total_orders / 2))
    ((generate_geometric_weights (st.total_orders / 2) r1 true).map
      (fun w => st.max_position * w))
    (nbgeomspace ba (ba + s15) (st.total_orders / 2))
    ((generate_geometric_weights (st.total_orders / 2) r2 true).map
      (fun w => st.max_position * w))
    (st.total_orders / 2)
    (nbgeomspace_length _ _ _)
    (by rw [List.length_map, generate_geometric_weights_length])
    (nbgeomspace_length _ _ _)
    (by rw [List.length_map, generate_geometric_weights_length])
    0 hn1
  simp only [Nat.mul_zero, Nat.zero_add] at gb ga
  constructor
  · rw [gb]
    simp only [Option.map_some', mkBid]
    rw [nbgeomspace_get_zero _ _ _ hn1]
  · rw [ga]
    simp only [Option.map_some', mkAsk]
    rw [nbgeomspace_get_zero _ _ _ hn1]

/-! ### C7 — branch continuity at zero skew -/

/-- C7 (confirmed): at `skew = 0` (any mid, `spread > 0`, any
aggressiveness), the positive-skew and negative-skew constructions agree
on the best quotes: both have `aggressiveness_eff = 0`, an (unrounded)
best bid of `mid - spread/2` and best ask of `mid + spread/2`, and the
first emitted bid/ask quotes of both branches carry identical prices —
best-quote placement is continuous across the branch switch. -/
theorem C7_branch_continuity_at_zero_skew (st : SmmState) (spread : ℝ)
    (hsp : 0 < spread) (hn : 2 ≤ st.total_orders) :
    aggressiveness_eff st 0 = 0 ∧
    pos_best_bid st 0 spread = st.mid - spread / 2 ∧
    pos_best_ask st 0 spread = st.mid + spread / 2 ∧
    neg_best_bid st 0 spread = st.mid - spread / 2 ∧
    neg_best_ask st 0 spread = st.mid + spread / 2 ∧
    ∃ qp qn, generate_positive_skew_quotes st 0 spread = some qp ∧
      generate_negative_skew_quotes st 0 spread = some qn ∧
      qp[0]?.map Quote.price =
        some (round_floor (st.mid - spread / 2) st.tick_size) ∧
      qn[0]?.map Quote.price =
        some (round_floor (st.mid - spread / 2) st.tick_size) ∧
      qp[1]?.map Quote.price =
        some (round_ceil (st.mid + spread / 2) st.tick_size) ∧
      qn[1]?.map Quote.price =
        some (round_ceil (st.mid + spread / 2) st.tick_size) := by
  have he : aggressiveness_eff st 0 = 0 := by
    unfold aggressiveness_eff
    rw [Real.zero_rpow (by norm_num : (0.5:ℝ) ≠ 0), mul_zero]
  have hbb : pos_best_bid st 0 spread = st.mid - spread / 2 := by
    unfold pos_best_bid
    rw [he]
    ring
  have hba : pos_best_ask st 0 spread = st.mid + spread / 2 := by
    unfold pos_best_ask
    rw [hbb]
    ring
  have hnba : neg_best_ask st 0 spread = st.mid + spread / 2 := by
    unfold neg_best_ask
    rw [he]
    ring
  have hnbb : neg_best_bid st 0 spread = st.mid - spread / 2 := by
    unfold neg_best_bid
    rw [hnba]
    ring
  have hn1 : 0 < st.total_orders / 2 := by omega
  refine ⟨he, hbb, hba, hnbb, hnba, ?_⟩
  rw [generate_positive_eq st 0 spread le_rfl hsp.le,
      generate_negative_eq st 0 spread le_rfl hsp.le, hbb, hba, hnbb, hnba]
  refine ⟨_, _, rfl, rfl, ?_, ?_, ?_, ?_⟩
  · exact (ladder_first_prices st (st.mid - spread / 2) (st.mid + spread / 2)
      (spread ^ (1.5:ℝ)) (clipped_r 0) (pos_ask_ratio st 0) hn1).1
  · exact (ladder_first_prices st (st.mid - spread / 2) (st.mid + spread / 2)
      (spread ^ (1.5:ℝ)) (pos_ask_ratio st 0) (clipped_r 0) hn1).1
  · exact (ladder_first_prices st (st.mid - spread / 2) (st.mid + spread / 2)
      (spread ^ (1.5:ℝ)) (clipped_r 0) (pos_ask_ratio st 0) hn1).2
  · exact (ladder_first_prices st (st.mid - spread / 2) (st.mid + spread / 2)
      (spread ^ (1.5:ℝ)) (pos_ask_ratio st 0) (clipped_r 0) hn1).2

/-- C7 witness: the continuity facts instantiated at the parameter set
`stA` and spread 1. -/
theorem C7_branch_continuity_witness :
    (0:ℝ) < 1 ∧ 2 ≤ stA.total_orders ∧
    (aggressiveness_eff stA 0 = 0 ∧
    pos_best_bid stA 0 1 = stA.mid - 1 / 2 ∧
    pos_best_ask stA 0 1 = stA.mid + 1 / 2 ∧
    neg_best_bid stA 0 1 = stA.mid - 1 / 2 ∧
    neg_best_ask stA 0 1 = stA.mid + 1 / 2 ∧
    ∃ qp qn, generate_positive_skew_quotes stA 0 1 = some qp ∧
      generate_negative_skew_quotes stA 0 1 = some qn ∧
      qp[0]?.map Quote.price =
        some (round_floor (stA.mid - 1 / 2) stA.tick_size) ∧
      qn[0]?.map Quote.price =
        some (round_floor (stA.mid - 1 / 2) stA.tick_size) ∧
      qp[1]?.map Quote.price =
        some (round_ceil (stA.mid + 1 / 2) stA.tick_size) ∧
      qn[1]?.map Quote.price =
        some (round_ceil (stA.mid + 1 / 2) stA.tick_size)) :=
  ⟨by norm_num, by norm_num [stA],
    C7_branch_continuity_at_zero_skew stA 1 (by norm_num) (by norm_num [stA])⟩

/-! ### C8 — warm-up wait -/

/-- C8 counterexample: the warm-up loop exits on a poll where
`tick_size = 0` (every other condition holding and `lot_size ≠ 0`), so
the loop does not require both tick and lot sizes to be non-zero: it only
re-polls when the two are simultaneously zero. -/
theorem C8_counterexample_tick_zero_exit :
    wait_for_ws_warmup tickZeroPolls 1 = some 0 ∧
      (tickZeroPolls 0).tick_size = 0 ∧ (tickZeroPolls 0).lot_size ≠ 0 ∧
      100 ≤ (tickZeroPolls 0).trades_len ∧ 100 ≤ (tickZeroPolls 0).ohlcv_len ∧
      1 ≤ (tickZeroPolls 0).ticker_len := by
  decide

/-- C8 (amended): the warm-up wait terminates at poll `n` only when, at
`n`, the trades count and OHLCV count have reached 100, the ticker has at
least one entry, and `tick_size` and `lot_size` are not *both* zero; at
every earlier poll some guard failed and the loop slept and re-polled. -/
theorem C8_warmup_exit_conditions (polls : ℕ → WsData) (fuel n : ℕ)
    (h : wait_for_ws_warmup polls fuel = some n) :
    (100 ≤ (polls n).trades_len ∧ 100 ≤ (polls n).ohlcv_len ∧
      1 ≤ (polls n).ticker_len ∧
      ¬((polls n).tick_size = 0 ∧ (polls n).lot_size = 0)) ∧
    ∀ m, m < n → warmup_pass (polls m) = false := by
  obtain ⟨-, h2, h3⟩ := waitFrom_some polls fuel 0 n h
  exact ⟨(warmup_pass_iff _).mp h2, fun m hm => h3 m (Nat.zero_le m) hm⟩

/-- C8 witness: on a stream whose first poll already satisfies every
condition, the wait terminates at poll 0 and the exit conditions hold. -/
theorem C8_warmup_exit_conditions_witness :
    wait_for_ws_warmup readyPolls 1 = some 0 ∧
      (100 ≤ (readyPolls 0).trades_len ∧ 100 ≤ (readyPolls 0).ohlcv_len ∧
        1 ≤ (readyPolls 0).ticker_len ∧
        ¬((readyPolls 0).tick_size = 0 ∧ (readyPolls 0).lot_size = 0)) :=
  ⟨by decide, (C8_warmup_exit_conditions readyPolls 1 0 (by decide)).1⟩

/-! ### C9 — quote-generator loading -/

/-- C9 (confirmed): `load_quote_generator` returns a generator exactly
for the lowercased names `"plain"` and `"stinky"`, and raises a fatal
configuration error (`ValueError`, modelled as `Except.error`) for every
other name. -/
theorem C9_load_quote_generator_exact (name : String) :
    (load_quote_generator name = Except.ok QuoteGeneratorKind.plain ↔
      name.toLower = "plain") ∧
    (load_quote_generator name = Except.ok QuoteGeneratorKind.stinky ↔
      name.toLower = "stinky") ∧
    ((∃ e, load_quote_generator name = Except.error e) ↔
      name.toLower ≠ "plain" ∧ name.toLower ≠ "stinky") := by
  unfold load_quote_generator
  by_cases h1 : name.toLower = "plain"
  · rw [h1]; simp
  · by_cases h2 : name.toLower = "stinky"
    · rw [h2]; simp
    · rw [show (match name.toLower with
        | "plain" => Except.ok QuoteGeneratorKind.plain
        | "stinky" => Except.ok QuoteGeneratorKind.stinky
        | other => Except.error ("Invalid quote generator: " ++ other)) =
          Except.error ("Invalid quote generator: " ++ name.toLower) from ?_]
      · simp [h1, h2]
      · split
        · exact absurd (by assumption) h1
        · exact absurd (by assumption) h2
        · rfl

/-- C9 witness: the three characterizations instantiated at the concrete
name `"Plain"`. -/
theorem C9_load_quote_generator_witness :
    (load_quote_generator "Plain" = Except.ok QuoteGeneratorKind.plain ↔
      ("Plain").toLower = "plain") ∧
    (load_quote_generator "Plain" = Except.ok QuoteGeneratorKind.stinky ↔
      ("Plain").toLower = "stinky") ∧
    ((∃ e, load_quote_generator "Plain" = Except.error e) ↔
      ("Plain").toLower ≠ "plain" ∧ ("Plain").toLower ≠ "stinky") :=
  C9_load_quote_generator_exact "Plain"

/-! ### C10 — best-bid/ask imbalance -/

/-- C10 (confirmed): over exact arithmetic, for `bid, ask > 0` the
imbalance `((bid/(ask+bid)) - 0.5) * 2` lies strictly inside `(-1, 1)`,
vanishes exactly when `bid = ask`, and is antisymmetric in its two
arguments. -/
theorem C10_bba_imbalance_props (bid ask : ℚ) (hb : 0 < bid) (ha : 0 < ask) :
    (-1 < bba_imbalance bid ask ∧ bba_imbalance bid ask < 1) ∧
    (bba_imbalance bid ask = 0 ↔ bid = ask) ∧
    bba_imbalance bid ask = - bba_imbalance ask bid := by
  have hs : 0 < ask + bid := by linarith
  have hs' : ask + bid ≠ 0 := ne_of_gt hs
  have key : bba_imbalance bid ask = (bid - ask) / (ask + bid) := by
    unfold bba_imbalance
    field_simp
    ring
  refine ⟨⟨?_, ?_⟩, ?_, ?_⟩
  · rw [key, lt_div_iff₀ hs]
    linarith
  · rw [key, div_lt_one hs]
    linarith
  · rw [key, div_eq_zero_iff]
    constructor
    · rintro (h | h)
      · linarith
      · exact absurd h hs'
    · intro h
      left
      linarith
  · unfold bba_imbalance
    have hs'' : bid + ask ≠ 0 := by intro h; exact hs' (by linarith)
    field_simp
    ring

/-- C10 witness: the properties instantiated at `bid = 2`, `ask = 3`. -/
theorem C10_bba_imbalance_witness :
    (0:ℚ) < 2 ∧ (0:ℚ) < 3 ∧
    ((-1 < bba_imbalance 2 3 ∧ bba_imbalance 2 3 < 1) ∧
      (bba_imbalance 2 3 = 0 ↔ (2:ℚ) = 3) ∧
      bba_imbalance 2 3 = - bba_imbalance 3 2) :=
  ⟨by norm_num, by norm_num, C10_bba_imbalance_props 2 3 (by norm_num) (by norm_num)⟩

end Smm
